import Mathlib

/-!
Verification of the sliding-window rate limiter of the time-tracker
repository (`internal/shared/middleware/rate_limit.go` together with the
middleware chain assembled in `internal/app/app.go`).

Modelling conventions:
* `time.Time` / `time.Duration` values are integers counting nanoseconds
  (Go durations are int64 nanosecond counts; overflow never matters at the
  magnitudes the limiter manipulates, so plain `Int` is used).
* Go `map[string][]time.Time` becomes a total function `String → List Int`
  with `[]` for missing keys, matching the zero value Go hands out on a
  read of a missing key, and pointwise update for map writes.
* A Go run-time panic is modelled as `none` in an `Option` result.
* The float computation `int(window.Seconds() - elapsed.Seconds())` is
  modelled by exact rational arithmetic truncated toward zero (`Int.tdiv`
  by `10^9`); the Go `int` conversion truncates toward zero.  All concrete
  inputs used below make the float arithmetic exact, so the model and the
  Go code agree on them.
-/

namespace TimeTracker

/-- Nanoseconds per second; `time.Second` as an integer nanosecond count. -/
def nsPerSecond : Int := 1000000000

/-- One minute in nanoseconds (`time.Minute`), the fixed limiter window. -/
def oneMinute : Int := 60 * nsPerSecond

/-- Five minutes in nanoseconds (`5 * time.Minute`), the cleanup tick. -/
def fiveMinutes : Int := 5 * oneMinute

/-- The per-key request log: Go `map[string][]time.Time`, with a missing
key reading as the empty slice. -/
def ReqMap : Type := String → List Int

/-- Go map write `m[k] = v`, as a pointwise function update. -/
def update (m : ReqMap) (k : String) (v : List Int) : ReqMap :=
  fun q => if q = k then v else m q

/-- The `RateLimiter` struct of `rate_limit.go`.  The mutex serializes
access and is not part of the sequential model; the `cleanupStop` channel
is modelled by whether it has been closed. -/
structure RLState where
  requests : ReqMap
  limit : Int
  window : Int
  cleanupTick : Int
  cleanupStopClosed : Bool

/-- `NewRateLimiter` from `rate_limit.go`: note that it performs no
validation of `limit` whatsoever and always returns a limiter. -/
def NewRateLimiter (limit : Int) : RLState :=
  { requests := fun _ => []
    limit := limit
    window := oneMinute
    cleanupTick := fiveMinutes
    cleanupStopClosed := false }

/-- The pruning loop of `Allow`: keep the timestamps `t` with
`t.After(windowStart)`, i.e. strictly greater than `now - window`. -/
def pruneL (window now : Int) (l : List Int) : List Int :=
  l.filter fun t => decide (now - window < t)

/-- The clamp `if retryAfter < 1 { retryAfter = 1 }` of `Allow`. -/
def clampRA (r : Int) : Int :=
  if r < 1 then 1 else r

/-- The decision part of `Allow`, acting on the one key involved.  Given
the stored timestamp list it returns the decision, the retry delay and the
list written back, or `none` for the panic that Go raises when
`validRequests[0]` is read out of bounds (which happens exactly when the
pruned list is empty yet its length already reaches `limit`, i.e. when
`limit <= 0`). -/
def allowDecide (limit window : Int) (l : List Int) (now : Int) :
    Option (Bool × Int × List Int) :=
  let validRequests := pruneL window now l
  if limit ≤ (validRequests.length : Int) then
    match validRequests with
    | [] => none
    | oldest :: _ =>
      some (false, clampRA (Int.tdiv (window - (now - oldest)) nsPerSecond),
        validRequests)
  else
    some (true, 0, validRequests ++ [now])

/-- `RateLimiter.Allow` from `rate_limit.go`: prune the stored list for
the key, reject without appending when the pruned count already reaches
the limit, otherwise append `now`; either way write the list back.
`none` models the out-of-bounds panic. -/
def Allow (rl : RLState) (ip : String) (now : Int) :
    Option (Bool × Int × RLState) :=
  (allowDecide rl.limit rl.window (rl.requests ip) now).map
    fun x => (x.1, x.2.1, { rl with requests := update rl.requests ip x.2.2 })

/-- The observable part of an `Allow` call: the `(allowed, retryAfter)`
pair the caller sees, `none` for a panic. -/
def allowResult (rl : RLState) (ip : String) (now : Int) :
    Option (Bool × Int) :=
  (Allow rl ip now).map fun x => (x.1, x.2.1)

/-- `RateLimiter.Stop` from `rate_limit.go`: `close(rl.cleanupStop)`.
Go panics on a close of an already-closed channel, modelled by `none`. -/
def Stop (rl : RLState) : Option RLState :=
  if rl.cleanupStopClosed then none
  else some { rl with cleanupStopClosed := true }

/-- A sequence of `Allow` calls for one key, collecting the decisions; the
whole run panics (`none`) as soon as one call does. -/
def runAllow (ip : String) : RLState → List Int → Option (List Bool × RLState)
  | rl, [] => some ([], rl)
  | rl, t :: ts =>
    match Allow rl ip t with
    | none => none
    | some (a, _, rl2) =>
      match runAllow ip rl2 ts with
      | none => none
      | some (ds, rlf) => some (a :: ds, rlf)

/-! Basic lemmas about the map update, the clamp and the pruning step. -/

theorem update_apply_self (m : ReqMap) (k : String) (v : List Int) :
    update m k v k = v := by
  simp [update]

theorem update_update (m : ReqMap) (k : String) (v w : List Int) :
    update (update m k v) k w = update m k w := by
  funext q
  by_cases hq : q = k <;> simp [update, hq]

theorem update_eq_self (m : ReqMap) (k : String) (v : List Int) (h : m k = v) :
    update m k v = m := by
  funext q
  by_cases hq : q = k <;> simp [update, hq, h.symm]

theorem clampRA_eq_max (r : Int) : clampRA r = max 1 r := by
  by_cases h : r < 1 <;> simp [clampRA, h] <;> omega

theorem pruneL_eq_self (window now : Int) (l : List Int)
    (h : ∀ t ∈ l, now - window < t) : pruneL window now l = l := by
  rw [pruneL, List.filter_eq_self]
  intro a ha
  simpa using h a ha

theorem mem_pruneL {window now : Int} {l : List Int} {t : Int}
    (h : t ∈ pruneL window now l) : t ∈ l ∧ now - window < t := by
  simpa [pruneL] using h

theorem pruneL_pruneL (window now now' : Int) (l : List Int) (h : now ≤ now') :
    pruneL window now' (pruneL window now l) = pruneL window now' l := by
  rw [pruneL, pruneL, List.filter_filter]
  apply List.filter_congr
  intro x _
  by_cases hx : now' - window < x
  · have hx' : now - window < x := by omega
    simp [hx, hx']
  · simp [hx]

/-! Inversion lemmas extracting the shape of a rejecting `Allow` call. -/

theorem allowDecide_false_inv {limit window : Int} {l : List Int} {now ra : Int}
    {l' : List Int}
    (h : allowDecide limit window l now = some (false, ra, l')) :
    l' = pruneL window now l ∧ limit ≤ (l'.length : Int) ∧
      ∃ oldest rest, l' = oldest :: rest ∧
        ra = clampRA (Int.tdiv (window - (now - oldest)) nsPerSecond) := by
  unfold allowDecide at h
  by_cases hge : limit ≤ ((pruneL window now l).length : Int)
  · rw [if_pos hge] at h
    cases hp : pruneL window now l with
    | nil => rw [hp] at h; exact absurd h (by simp)
    | cons o rest =>
      rw [hp] at h
      simp only [Option.some.injEq, Prod.mk.injEq] at h
      obtain ⟨-, hra, hl'⟩ := h
      refine ⟨hl'.symm, ?_, o, rest, hl'.symm, hra.symm⟩
      rw [hp] at hge
      exact hl' ▸ hge
  · rw [if_neg hge] at h
    exact absurd h (by simp)

theorem Allow_eq_some {rl : RLState} {ip : String} {now : Int} {b : Bool}
    {ra : Int} {rl' : RLState}
    (h : Allow rl ip now = some (b, ra, rl')) :
    ∃ l', allowDecide rl.limit rl.window (rl.requests ip) now = some (b, ra, l') ∧
      rl' = { rl with requests := update rl.requests ip l' } := by
  unfold Allow at h
  rw [Option.map_eq_some'] at h
  obtain ⟨⟨b0, ra0, l0⟩, hd, heq⟩ := h
  simp only [Prod.mk.injEq] at heq
  obtain ⟨hb, hra, hrl⟩ := heq
  subst hb hra hrl
  exact ⟨l0, hd, rfl⟩

/-! String and state constants used by the concrete witnesses below; the
key and limits follow the concrete scenario of the specification. -/

def ipA : String := "203.0.113.7"

/-- A limiter state whose key `ipA` already holds one timestamp (at 0 ns)
with `limit = 1`: its next call for `ipA` inside the window is rejected. -/
def rlCex : RLState :=
  { requests := update (fun _ => []) ipA [0]
    limit := 1
    window := oneMinute
    cleanupTick := fiveMinutes
    cleanupStopClosed := false }

/-- The state `Allow` writes back when it rejects `ipA` on `rlCex`. -/
def rlCexAfter : RLState :=
  { rlCex with requests := update rlCex.requests ipA [0] }

/-- C2: the claim says a non-positive limit must be rejected at
construction time.  The code has no such check: `NewRateLimiter` accepts
`0` and `-1` and returns a fully formed limiter (fixed one-minute window,
open stop channel) whose misconfiguration only surfaces later.  This
contradicts the stated fail-fast requirement, so the claim is recorded as
a code bug with this theorem exhibiting the constructor behaviour. -/
theorem newRateLimiter_accepts_nonpositive :
    (NewRateLimiter 0).limit = 0 ∧ (NewRateLimiter (-1)).limit = -1 ∧
      (NewRateLimiter 0).window = oneMinute ∧
      (NewRateLimiter 0).cleanupStopClosed = false :=
  ⟨rfl, rfl, rfl, rfl⟩

/-- C6: the claim says a second `Stop` is safe and equivalent to one
`Stop`.  In the code `Stop` is a bare `close` of the stop channel, and Go
panics on a close of an already-closed channel: the first `Stop` succeeds
and the second panics (`none`), so stopping is not idempotent. -/
theorem stop_not_idempotent :
    (Stop (NewRateLimiter 3)).isSome = true ∧
      (Stop (NewRateLimiter 3)).bind Stop = none :=
  ⟨rfl, rfl⟩

/-- C10: with a non-positive limit, `Allow` on a fresh key prunes the
empty list, finds its length `0` already at the limit, and reads
`validRequests[0]` out of bounds: the call panics (`none`) instead of
returning a decision. -/
theorem allow_panics_on_nonpositive_limit (rl : RLState) (ip : String)
    (now : Int) (hlim : rl.limit ≤ 0) (hfresh : rl.requests ip = []) :
    Allow rl ip now = none := by
  simp [Allow, allowDecide, hfresh, pruneL, hlim]

/-- Witness for C10 at the concrete misconfigured limiter
`NewRateLimiter 0` and a fresh key. -/
theorem allow_panics_on_nonpositive_limit_witness :
    Allow (NewRateLimiter 0) ipA 5 = none :=
  allow_panics_on_nonpositive_limit (NewRateLimiter 0) ipA 5 (by decide) rfl

/-- The retry delay of the specification text, which asks for
`ceil(window - (now - oldestRemaining))` in seconds, floored at 1.  The
ceiling of the exact rational `d / 10^9` is written through `Int.fdiv`. -/
def specRetryCeil (window elapsed : Int) : Int :=
  max 1 (-(Int.fdiv (-(window - elapsed)) nsPerSecond))

/-- C3 counterexample: with one entry at 0 ns, `limit = 1` and a rejecting
call at 30.5 s, the code computes `int(60.0 - 30.5) = 29` (truncation),
while the claimed ceiling formula gives `30`.  The float arithmetic is
exact at this input, so the model matches the Go computation. -/
theorem retryAfter_truncates_not_ceil :
    allowResult rlCex ipA 30500000000 = some (false, 29) ∧
      specRetryCeil oneMinute (30500000000 - 0) = 30 ∧ (29 : Int) ≠ 30 :=
  ⟨by decide, by decide, by decide⟩

/-- C3 amended: on a rejecting `Allow` call the returned delay is
`window - (now - oldestRemaining)` in seconds rounded by truncation
toward zero — which equals the floor, not the ceiling, because the
quantity is positive for every timestamp that survives the prune — and
then floored at 1. -/
theorem retryAfter_floor_clamped (rl : RLState) (ip : String) (now ra : Int)
    (rl' : RLState) (oldest : Int) (rest : List Int)
    (h : Allow rl ip now = some (false, ra, rl'))
    (hp : pruneL rl.window now (rl.requests ip) = oldest :: rest) :
    ra = max 1 (Int.fdiv (rl.window - (now - oldest)) nsPerSecond) := by
  obtain ⟨l', hd, -⟩ := Allow_eq_some h
  obtain ⟨hl, -, o, r0, hcons, hra⟩ := allowDecide_false_inv hd
  have hoe : oldest :: rest = o :: r0 := by rw [← hp, ← hl, hcons]
  obtain ⟨ho, -⟩ := List.cons.inj hoe
  have hmem : oldest ∈ pruneL rl.window now (rl.requests ip) := by
    rw [hp]; exact List.mem_cons_self _ _
  have hpos : 0 < rl.window - (now - oldest) := by
    have := (mem_pruneL hmem).2; omega
  have hns : (0:Int) ≤ nsPerSecond := by norm_num [nsPerSecond]
  have htf : Int.tdiv (rl.window - (now - oldest)) nsPerSecond
      = Int.fdiv (rl.window - (now - oldest)) nsPerSecond := by
    rw [Int.tdiv_eq_ediv (le_of_lt hpos) hns, Int.fdiv_eq_ediv _ hns]
  rw [hra, ← ho, clampRA_eq_max, htf]

/-- Witness for the amended C3 statement at the concrete rejecting call
used by the counterexample: the delay 29 is the clamped floor. -/
theorem retryAfter_floor_clamped_witness :
    (29 : Int) = max 1 (Int.fdiv (rlCex.window - (30500000000 - 0)) nsPerSecond) :=
  retryAfter_floor_clamped rlCex ipA 30500000000 29 rlCexAfter 0 []
    (by rfl) (by rfl)

/-- C4: whenever `Allow` rejects (and the stored timestamps do not lie in
the future of `now`, i.e. the clock is monotone), the returned delay lies
between 1 and 60 seconds for the fixed one-minute window. -/
theorem retryAfter_bounds (rl : RLState) (ip : String) (now ra : Int)
    (rl' : RLState)
    (hw : rl.window = 60 * nsPerSecond)
    (hmono : ∀ t ∈ rl.requests ip, t ≤ now)
    (h : Allow rl ip now = some (false, ra, rl')) :
    1 ≤ ra ∧ ra ≤ 60 := by
  obtain ⟨l', hd, -⟩ := Allow_eq_some h
  obtain ⟨hl, -, o, r0, hcons, hra⟩ := allowDecide_false_inv hd
  have hmem : o ∈ pruneL rl.window now (rl.requests ip) := by
    rw [← hl, hcons]; exact List.mem_cons_self _ _
  obtain ⟨hmem', hwin⟩ := mem_pruneL hmem
  have holdle : o ≤ now := hmono o hmem'
  have hd0 : 0 < rl.window - (now - o) := by omega
  have hdW : rl.window - (now - o) ≤ 60 * nsPerSecond := by
    rw [hw]; omega
  have hns : (0:Int) < nsPerSecond := by norm_num [nsPerSecond]
  have ht : Int.tdiv (rl.window - (now - o)) nsPerSecond
      = (rl.window - (now - o)) / nsPerSecond :=
    Int.tdiv_eq_ediv (le_of_lt hd0) (le_of_lt hns)
  have hub : (rl.window - (now - o)) / nsPerSecond ≤ 60 := by
    have h1 : (rl.window - (now - o)) / nsPerSecond
        ≤ (60 * nsPerSecond) / nsPerSecond := Int.ediv_le_ediv hns hdW
    rwa [Int.mul_ediv_cancel _ (ne_of_gt hns)] at h1
  rw [hra, clampRA_eq_max, ht]
  exact ⟨le_max_left 1 _, max_le (by norm_num) hub⟩

/-- Witness for C4 at the concrete rejecting call of `rlCex`. -/
theorem retryAfter_bounds_witness : (1:Int) ≤ 29 ∧ (29:Int) ≤ 60 :=
  retryAfter_bounds rlCex ipA 30500000000 29 rlCexAfter rfl
    (by decide) (by rfl)

/-- Restricting `allowDecide` to the list pruned at an earlier instant
changes nothing: the decision prunes again at the later instant, and
pruning at the later instant absorbs pruning at the earlier one. -/
theorem allowDecide_pruned (limit window now now' : Int) (l : List Int)
    (h : now ≤ now') :
    allowDecide limit window (pruneL window now l) now'
      = allowDecide limit window l now' := by
  unfold allowDecide
  rw [pruneL_pruneL _ _ _ _ h]

/-- C5: a rejecting `Allow` call stores exactly the pruned sequence for
the key — no new timestamp is appended — and any later `Allow` call for
that key returns the very same result (decision, delay and state) as if
the rejected call had never happened. -/
theorem rejected_call_consumes_no_slot (rl : RLState) (ip : String)
    (now ra : Int) (rl' : RLState)
    (h : Allow rl ip now = some (false, ra, rl')) :
    rl'.requests ip = pruneL rl.window now (rl.requests ip) ∧
      ∀ now', now ≤ now' → Allow rl' ip now' = Allow rl ip now' := by
  obtain ⟨l', hd, hrl'⟩ := Allow_eq_some h
  obtain ⟨hl, -, -⟩ := allowDecide_false_inv hd
  subst hl
  subst hrl'
  refine ⟨update_apply_self _ _ _, ?_⟩
  intro now' hle
  unfold Allow
  simp only [update_apply_self, update_update]
  rw [allowDecide_pruned _ _ _ _ _ hle]

/-- Witness for C5: after the rejected call on `rlCex`, the stored list
for the key is still just `[0]`, and a call one window later behaves as
on the original state. -/
theorem rejected_call_consumes_no_slot_witness :
    rlCexAfter.requests ipA = [0] ∧
      Allow rlCexAfter ipA 60500000000 = Allow rlCex ipA 60500000000 := by
  have h := rejected_call_consumes_no_slot rlCex ipA 30500000000 29 rlCexAfter
    (by rfl)
  exact ⟨h.1.trans (by decide), h.2 60500000000 (by decide)⟩

/-- Main induction for quota exactness: starting from a state whose key
already stores `acc`, a run of calls at instants `ts` is fully admitted as
long as every involved instant fits inside the trailing window ending at
the bound `T` and the total count stays at or below the limit; the final
state stores `acc ++ ts` for the key. -/
theorem runAllow_admits (ip : String) (N : ℕ) (T w : Int) :
    ∀ (ts : List Int) (rl : RLState) (acc : List Int),
      rl.limit = (N : Int) → rl.window = w → rl.requests ip = acc →
      (∀ x ∈ acc ++ ts, T - w < x) → (∀ t ∈ ts, t ≤ T) →
      acc.length + ts.length ≤ N →
      runAllow ip rl ts =
        some (List.replicate ts.length true,
          { rl with requests := update rl.requests ip (acc ++ ts) }) := by
  intro ts
  induction ts with
  | nil =>
    intro rl acc hlim hw hacc hwin hle hlen
    simp only [runAllow, List.length_nil, List.replicate, List.append_nil]
    rw [update_eq_self _ _ _ hacc]
  | cons t ts ih =>
    intro rl acc hlim hw hacc hwin hle hlen
    have hallow : Allow rl ip t = some (true, 0,
        { rl with requests := update rl.requests ip (acc ++ [t]) }) := by
      unfold Allow allowDecide
      rw [hacc, hw, hlim]
      rw [pruneL_eq_self w t acc (fun x hx => by
        have h1 := hwin x (by simp [hx])
        have h2 := hle t (by simp)
        omega)]
      have hcount : acc.length < N := by
        have := List.length_pos.mpr (List.cons_ne_nil t ts)
        simp only [List.length_cons] at hlen
        omega
      have hlt : ¬ ((N:Int) ≤ (acc.length : Int)) := by exact_mod_cast not_le.mpr hcount
      rw [if_neg hlt]
      rfl
    simp only [runAllow]
    rw [hallow]
    have ih2 := ih { rl with requests := update rl.requests ip (acc ++ [t]) }
      (acc ++ [t]) hlim hw (update_apply_self _ _ _)
      (fun x hx => hwin x (by
        simp only [List.mem_append, List.mem_cons] at hx ⊢
        tauto))
      (fun t' ht' => hle t' (by simp [ht']))
      (by simp at hlen ⊢; omega)
    simp only [ih2, update_apply_self, update_update, List.append_assoc,
      List.singleton_append, List.length_cons, List.replicate_succ]

/-- Splitting a run of `Allow` calls at a list append. -/
theorem runAllow_append (ip : String) (as bs : List Int) :
    ∀ rl, runAllow ip rl (as ++ bs) =
      match runAllow ip rl as with
      | none => none
      | some (ds, rl1) =>
        match runAllow ip rl1 bs with
        | none => none
        | some (es, rl2) => some (ds ++ es, rl2) := by
  induction as with
  | nil =>
    intro rl
    simp only [List.nil_append, runAllow]
    cases h : runAllow ip rl bs with
    | none => rfl
    | some p => rfl
  | cons a as ih =>
    intro rl
    simp only [List.cons_append, runAllow, List.append_eq]
    cases hA : Allow rl ip a with
    | none => rfl
    | some x =>
      obtain ⟨b, ra, rl2⟩ := x
      dsimp only
      rw [ih rl2]
      cases h1 : runAllow ip rl2 as with
      | none => rfl
      | some p =>
        obtain ⟨ds, rl1⟩ := p
        dsimp only
        cases h2 : runAllow ip rl1 bs with
        | none => rfl
        | some q => rfl

/-- C1: quota exactness with the stated tie-break.  For a key with no
stored requests and a limit of `N > 0`, the first `N` calls inside one
trailing window (all instants at most `tl` and strictly inside the window
ending at `tl`) are all admitted, and the `(N+1)`-th call at `tl` is
rejected; the rejecting call compares the pruned count `N` against the
limit before the new entry would be added, and appends nothing. -/
theorem quota_exactness (rl : RLState) (ip : String) (N : ℕ)
    (front : List Int) (tl : Int)
    (hN : 0 < N) (hlim : rl.limit = (N : Int))
    (hfresh : rl.requests ip = [])
    (hlen : front.length = N)
    (hle : ∀ t ∈ front ++ [tl], t ≤ tl)
    (hwin : ∀ t ∈ front ++ [tl], tl - rl.window < t) :
    runAllow ip rl (front ++ [tl]) =
      some (List.replicate N true ++ [false],
        { rl with requests := update rl.requests ip front }) := by
  have h1 := runAllow_admits ip N tl rl.window front rl [] hlim rfl hfresh
    (fun x hx => hwin x (by
      simp only [List.nil_append] at hx
      simp only [List.mem_append, List.mem_cons]
      tauto))
    (fun t ht => hle t (by simp [ht]))
    (by simpa using hlen.le)
  obtain ⟨o, rest, rfl⟩ : ∃ o rest, front = o :: rest := by
    cases front with
    | nil => simp at hlen; omega
    | cons o rest => exact ⟨o, rest, rfl⟩
  have hprune : pruneL rl.window tl (o :: rest) = o :: rest :=
    pruneL_eq_self _ _ _ (fun x hx => hwin x (by
      simp only [List.mem_append, List.mem_cons] at hx ⊢
      tauto))
  have hallowtl : Allow { rl with requests := update rl.requests ip (o :: rest) }
      ip tl = some (false,
        clampRA (Int.tdiv (rl.window - (tl - o)) nsPerSecond),
        { rl with requests := update rl.requests ip (o :: rest) }) := by
    unfold Allow allowDecide
    simp only [update_apply_self, update_update]
    rw [hprune]
    have hge : (N:Int) ≤ ((o :: rest).length : Int) := by
      rw [hlen]
    rw [hlim, if_pos hge]
    rfl
  rw [runAllow_append ip (o :: rest) [tl] rl, h1]
  simp only [List.nil_append]
  simp only [runAllow]
  rw [hallowtl]
  rw [hlen]

/-- Witness for C1: `limit = 2` on a fresh limiter, calls at 0 ns, 5 ns
and 9 ns — two admissions, then a rejection that stores only the two
admitted timestamps. -/
theorem quota_exactness_witness :
    runAllow ipA (NewRateLimiter 2) ([0, 5] ++ [9]) =
      some (List.replicate 2 true ++ [false],
        { NewRateLimiter 2 with
            requests := update (NewRateLimiter 2).requests ipA [0, 5] }) :=
  quota_exactness (NewRateLimiter 2) ipA 2 [0, 5] 9 (by decide) (by decide)
    rfl (by decide) (by decide) (by decide)

/-!
HTTP layer.  A response writer is modelled by its header map (set wins,
later `Set` of the same key overwrites) and the final response; a handler
takes the request and the headers already set by enclosing middleware and
returns the response, `none` again modelling a panic.
-/

def Headers : Type := String → Option String

def emptyHeaders : Headers := fun _ => none

/-- `w.Header().Set(k, v)`. -/
def setHeader (h : Headers) (k v : String) : Headers :=
  fun q => if q = k then some v else h q

/-- The parts of `*http.Request` the rate-limiting subsystem reads: the
two proxy headers (empty string when absent, as Go `Header.Get` reports),
the peer address, and the context value under `CSPNonceKey`. -/
structure Request where
  xff : String
  xri : String
  remoteAddr : String
  ctxNonce : Option String

structure Response where
  status : Nat
  headers : Headers
  body : String

def Handler : Type := Request → Headers → Option Response

theorem setHeader_same (h : Headers) (k v : String) :
    setHeader h k v k = some v := by
  simp [setHeader]

theorem setHeader_other (h : Headers) (k v q : String) (hq : q ≠ k) :
    setHeader h k v q = h q := by
  simp [setHeader, hq]

/-! Key extraction (`getClientIP`).  Go string primitives are modelled on
`List Char`; `strings.TrimSpace` is restricted to ASCII whitespace, which
is faithful for every byte the claims exercise. -/

def isGoSpace (c : Char) : Bool :=
  c == ' ' || c == '\t' || c == '\n' || c == '\r' || c == '\x0b' || c == '\x0c'

/-- `strings.TrimSpace` (ASCII fragment). -/
def goTrim (s : String) : String :=
  (((s.toList.dropWhile isGoSpace).reverse.dropWhile isGoSpace).reverse).asString

/-- The first element of `strings.Split(s, ",")`: the prefix of `s` before
its first comma. -/
def firstOfCommaList (s : String) : String :=
  (s.toList.takeWhile (fun c => c != ',')).asString

/-- `addr[:lastColon]` when `strings.LastIndexByte(addr, ':')` finds a
colon, otherwise `addr` unchanged. -/
def stripLastColon (cs : List Char) : String :=
  if cs.contains ':' then
    (((cs.reverse.dropWhile (fun c => c != ':')).drop 1).reverse).asString
  else cs.asString

/-- The peer-address port stripping of `getClientIP`: a leading bracket
with a matching close bracket yields the bracket content (IPv6), else the
address is cut at its last colon when one exists. -/
def stripPort (addr : String) : String :=
  match addr.toList with
  | '[' :: rest =>
    if rest.contains ']' then (rest.takeWhile (fun c => c != ']')).asString
    else stripLastColon ('[' :: rest)
  | cs => stripLastColon cs

/-- The fallthrough tail of `getClientIP`: the trimmed real-IP header if
nonempty, then the peer address with its port stripped. -/
def clientIPTail (r : Request) : String :=
  let xri := goTrim r.xri
  if xri ≠ "" then xri
  else stripPort r.remoteAddr

/-- `getClientIP` from `rate_limit.go`: the trimmed forwarded-for header,
when nonempty, contributes its trimmed first comma-separated entry — but
only when that entry is itself nonempty — then the real-IP header, then
the peer address. -/
def getClientIP (r : Request) : String :=
  let xff := goTrim r.xff
  if xff ≠ "" then
    let first := goTrim (firstOfCommaList xff)
    if first ≠ "" then first
    else clientIPTail r
  else clientIPTail r

/-- Candidate from the forwarded-for header per the amended claim: the
trimmed first address, provided it is nonempty. -/
def xffCandidate (r : Request) : Option String :=
  let first := goTrim (firstOfCommaList (goTrim r.xff))
  if first = "" then none else some first

/-- Candidate from the real-IP header: its trimmed value, when nonempty. -/
def xriCandidate (r : Request) : Option String :=
  let xri := goTrim r.xri
  if xri = "" then none else some xri

/-- The amended key-extraction specification, written as a first-match
chain of optional candidates with the peer address as final fallback. -/
def clientIPSpec (r : Request) : String :=
  ((xffCandidate r).or (xriCandidate r)).getD (stripPort r.remoteAddr)

/-! C9 theorems. -/

def strComma : String := ","

def ip9 : String := "9.9.9.9"

def peerPlain : String := "1.2.3.4:80"

/-- A request whose forwarded-for header is present (`","`) yet whose
trimmed first entry is empty. -/
def rCex9 : Request :=
  { xff := strComma, xri := ip9, remoteAddr := peerPlain, ctxNonce := none }

/-- C9 counterexample: for the request with `X-Forwarded-For: ","` the
header is present, its trimmed first address is the empty string, and the
code does not return it — it falls through to the real-IP header.  So
"returns the trimmed first address of the list if present" fails as
stated. -/
theorem xff_present_but_skipped :
    rCex9.xff ≠ "" ∧ goTrim (firstOfCommaList (goTrim rCex9.xff)) = "" ∧
      getClientIP rCex9 = ip9 ∧
      getClientIP rCex9 ≠ goTrim (firstOfCommaList (goTrim rCex9.xff)) :=
  ⟨by decide, by decide, by decide, by decide⟩

/-- C9 amended: key extraction is a pure total function equal, on every
request, to the first-match chain that takes the trimmed first
forwarded-for address when that address is nonempty, else the trimmed
real-IP header when nonempty, else the peer address with any port suffix
stripped (bracketed IPv6 and plain forms). -/
theorem getClientIP_refines_spec (r : Request) :
    getClientIP r = clientIPSpec r := by
  by_cases hx : goTrim r.xff = ""
  · have hf0 : goTrim (firstOfCommaList (goTrim r.xff)) = "" := by
      rw [hx]; decide
    have hf1 := hf0
    rw [hx] at hf1
    by_cases hr : goTrim r.xri = "" <;>
      simp [getClientIP, clientIPSpec, xffCandidate, xriCandidate,
        clientIPTail, hx, hf0, hf1, hr, Option.or]
  · by_cases hf : goTrim (firstOfCommaList (goTrim r.xff)) = ""
    · by_cases hr : goTrim r.xri = "" <;>
        simp [getClientIP, clientIPSpec, xffCandidate, xriCandidate,
          clientIPTail, hx, hf, hr, Option.or]
    · simp [getClientIP, clientIPSpec, xffCandidate, xriCandidate,
        clientIPTail, hx, hf, Option.or]

def peerBracket : String := "[2001:db8::1]:8080"

def rBracket : Request :=
  { xff := "", xri := "", remoteAddr := peerBracket, ctxNonce := none }

def peerA : String := "203.0.113.7:8080"

/-- A request carrying no proxy headers whose peer is `ipA` with a port. -/
def rPeer : Request :=
  { xff := "", xri := "", remoteAddr := peerA, ctxNonce := none }

/-- Witness for the amended C9 statement on the peer-address fallback for
both address forms, with the concrete extracted keys spelled out. -/
theorem getClientIP_refines_spec_witness :
    getClientIP rPeer = clientIPSpec rPeer ∧
      getClientIP rBracket = clientIPSpec rBracket ∧
      getClientIP rBracket = "2001:db8::1" ∧ getClientIP rPeer = ipA :=
  ⟨getClientIP_refines_spec rPeer, getClientIP_refines_spec rBracket,
    by decide, by decide⟩

/-! The admission middleware (`RateLimitMiddleware`), the security-header
and CSP-nonce middlewares of the application, and the chain assembled by
`setupMiddlewareChain` in `app.go`.  The nonce drawn from `crypto/rand`
is a parameter of the model; `time.Now` inside `Allow` is the `now`
parameter. -/

def hContentType : String := "Content-Type"

def ctJSON : String := "application/json"

def hRetryAfter : String := "Retry-After"

/-- The exact JSON body written on rejection. -/
def rateLimitedBody : String :=
  "\x7b\"error\":\x7b\"code\":\"RATE_LIMITED\",\"message\":\"Too many requests\"\x7d\x7d"

/-- `RateLimitMiddleware` from `rate_limit.go`: on rejection it writes
`Content-Type` and `Retry-After`, status 429 and the JSON body without
invoking `next`; on admission it invokes `next` untouched. -/
def RateLimitMiddleware (rl : RLState) (now : Int) (next : Handler) : Handler :=
  fun r hdrs =>
    match Allow rl (getClientIP r) now with
    | none => none
    | some (allowed, retryAfter, _) =>
      if allowed then next r hdrs
      else
        some { status := 429
               headers := setHeader (setHeader hdrs hContentType ctJSON)
                 hRetryAfter (toString retryAfter)
               body := rateLimitedBody }

def hXContentTypeOptions : String := "X-Content-Type-Options"

def vNosniff : String := "nosniff"

def hXFrameOptions : String := "X-Frame-Options"

def vDeny : String := "DENY"

def hXSSProtection : String := "X-XSS-Protection"

def vXSSBlock : String := "1; mode=block"

def hCSP : String := "Content-Security-Policy"

def cspBase : String :=
  "default-src \x27self\x27; script-src \x27self\x27; style-src \x27self\x27 \x27unsafe-inline\x27; img-src \x27self\x27 data: https:; connect-src \x27self\x27; frame-ancestors \x27none\x27; object-src \x27none\x27"

def cspWithNonce (nonce : String) : String :=
  "default-src \x27self\x27; script-src \x27self\x27 \x27nonce-" ++ nonce ++
    "\x27 https://cdn.jsdelivr.net; style-src \x27self\x27 \x27unsafe-inline\x27; img-src \x27self\x27 data: https:; connect-src \x27self\x27; frame-ancestors \x27none\x27; object-src \x27none\x27"

/-- `SecurityHeadersMiddleware` from the middleware package: sets the
three fixed security headers (Go iterates the map in arbitrary order, but
`Set` on distinct keys commutes, so the literal order is faithful) and
the CSP header, whose value embeds the context nonce when present. -/
def SecurityHeadersMiddleware (next : Handler) : Handler :=
  fun r hdrs =>
    let h1 := setHeader hdrs hXContentTypeOptions vNosniff
    let h2 := setHeader h1 hXFrameOptions vDeny
    let h3 := setHeader h2 hXSSProtection vXSSBlock
    let cspValue :=
      match r.ctxNonce with
      | some nonce => cspWithNonce nonce
      | none => cspBase
    next r (setHeader h3 hCSP cspValue)

/-- The anonymous nonce middleware of `setupMiddlewareChain`: stores a
fresh random nonce (a parameter here) in the request context. -/
def nonceMiddleware (nonce : String) (next : Handler) : Handler :=
  fun r hdrs => next { r with ctxNonce := some nonce } hdrs

/-- `setupMiddlewareChain` from `app.go`: the rate limiter wraps the
router directly; the nonce middleware wraps the rate limiter; the
security-header middleware is outermost. -/
def setupMiddlewareChain (mux : Handler) (rl : RLState) (now : Int)
    (nonce : String) : Handler :=
  SecurityHeadersMiddleware (nonceMiddleware nonce (RateLimitMiddleware rl now mux))

/-- C8: whenever the key of a request is rejected by `Allow`, the
middleware answers — for every downstream handler, which is therefore
never consulted — with status 429, a `Retry-After` header holding the
decimal seconds returned by `Allow`, a JSON content type, exactly the
documented JSON error body, and no other header changes; whenever the key
is admitted, the middleware is the downstream handler applied to the
untouched request and headers. -/
theorem middleware_contract (rl : RLState) (now : Int) (r : Request)
    (hdrs : Headers) :
    (∀ ra, allowResult rl (getClientIP r) now = some (false, ra) →
      ∀ next : Handler, ∃ resp,
        RateLimitMiddleware rl now next r hdrs = some resp ∧
        resp.status = 429 ∧
        resp.headers hRetryAfter = some (toString ra) ∧
        resp.headers hContentType = some ctJSON ∧
        (∀ k, k ≠ hRetryAfter → k ≠ hContentType → resp.headers k = hdrs k) ∧
        resp.body = rateLimitedBody) ∧
    (∀ n, allowResult rl (getClientIP r) now = some (true, n) →
      ∀ next : Handler, RateLimitMiddleware rl now next r hdrs = next r hdrs) := by
  constructor
  · intro ra hra next
    unfold allowResult at hra
    rw [Option.map_eq_some'] at hra
    obtain ⟨⟨b, ra0, st⟩, hA, heq⟩ := hra
    simp only [Prod.mk.injEq] at heq
    obtain ⟨hb, hra0⟩ := heq
    subst hb
    subst hra0
    have hmid : RateLimitMiddleware rl now next r hdrs = some
        { status := 429
          headers := setHeader (setHeader hdrs hContentType ctJSON)
            hRetryAfter (toString ra0)
          body := rateLimitedBody } := by
      unfold RateLimitMiddleware
      rw [hA]
      rfl
    refine ⟨_, hmid, rfl, ?_, ?_, ?_, rfl⟩
    · dsimp only
      exact setHeader_same _ _ _
    · dsimp only
      rw [setHeader_other _ _ _ _ (by decide), setHeader_same]
    · intro k hk1 hk2
      dsimp only
      rw [setHeader_other _ _ _ _ hk1, setHeader_other _ _ _ _ hk2]
  · intro n hn next
    unfold allowResult at hn
    rw [Option.map_eq_some'] at hn
    obtain ⟨⟨b, n0, st⟩, hA, heq⟩ := hn
    simp only [Prod.mk.injEq] at heq
    obtain ⟨hb, -⟩ := heq
    subst hb
    unfold RateLimitMiddleware
    rw [hA]
    rfl

/-- Success-path downstream handler used by the concrete witnesses. -/
def next200 : Handler :=
  fun _ hdrs => some { status := 200, headers := hdrs, body := "" }

/-- Witness for C8 at concrete calls: the rejecting call of `rlCex` (via
the peer key `ipA`) produces the 429 response with `Retry-After: 29` and
the JSON body for an arbitrary downstream handler; a fresh limiter admits
the same request and the middleware reduces to the downstream handler. -/
theorem middleware_contract_witness :
    (RateLimitMiddleware rlCex 30500000000 next200 rPeer emptyHeaders).map
        Response.status = some 429 ∧
      (RateLimitMiddleware rlCex 30500000000 next200 rPeer emptyHeaders).map
        (fun resp => resp.headers hRetryAfter) = some (some (toString (29:Int))) ∧
      (RateLimitMiddleware rlCex 30500000000 next200 rPeer emptyHeaders).map
        (fun resp => resp.body) = some rateLimitedBody ∧
      RateLimitMiddleware (NewRateLimiter 3) 0 next200 rPeer emptyHeaders
        = next200 rPeer emptyHeaders := by
  obtain ⟨resp, hmid, hstat, hra, hct, hother, hbody⟩ :=
    (middleware_contract rlCex 30500000000 rPeer emptyHeaders).1 29
      (by decide) next200
  refine ⟨?_, ?_, ?_,
    (middleware_contract (NewRateLimiter 3) 0 rPeer emptyHeaders).2 0
      (by decide) next200⟩
  · rw [hmid, Option.map_some', hstat]
  · rw [hmid, Option.map_some', hra]
  · rw [hmid, Option.map_some', hbody]

/-- A nonce value for the concrete chain evaluations. -/
def nonceW : String := "testnonce"

/-- A downstream handler that panics, to witness that the router side is
irrelevant for a rejected request. -/
def muxNone : Handler := fun _ _ => none

/-- C7 counterexample: the claim places the admission middleware
outermost, with no other stage acting on a non-admitted request.  In the
assembled chain, the 429 response for the rejected request carries
`X-Frame-Options: DENY` — the effect of the security-header stage, which
therefore runs on non-admitted traffic — while the admission middleware
alone leaves that header unset.  So the admission middleware is not the
outermost stage. -/
theorem rate_limit_not_outermost :
    (setupMiddlewareChain next200 rlCex 30500000000 nonceW rPeer
        emptyHeaders).map Response.status = some 429 ∧
      (setupMiddlewareChain next200 rlCex 30500000000 nonceW rPeer
        emptyHeaders).map (fun resp => resp.headers hXFrameOptions)
        = some (some vDeny) ∧
      (RateLimitMiddleware rlCex 30500000000 next200 rPeer
        emptyHeaders).map (fun resp => resp.headers hXFrameOptions)
        = some none :=
  ⟨by decide, by decide, by decide⟩

/-- C7 amended: in the assembled chain the admission middleware is the
innermost stage — the security-header and nonce middlewares run outside
it and do act on rejected requests — but it still guards the router: for
a request whose key is rejected, the outcome of the chain is the same for
every router, so a non-admitted request never reaches the router and
hence no authentication, business logic, or persistence. -/
theorem non_admitted_never_reaches_router (rl : RLState) (now : Int)
    (nonce : String) (r : Request) (hdrs : Headers) (ra : Int)
    (h : allowResult rl (getClientIP r) now = some (false, ra)) :
    ∀ mux1 mux2 : Handler,
      setupMiddlewareChain mux1 rl now nonce r hdrs
        = setupMiddlewareChain mux2 rl now nonce r hdrs := by
  intro mux1 mux2
  unfold allowResult at h
  rw [Option.map_eq_some'] at h
  obtain ⟨⟨b, ra0, st⟩, hA, heq⟩ := h
  simp only [Prod.mk.injEq] at heq
  obtain ⟨hb, -⟩ := heq
  subst hb
  unfold setupMiddlewareChain SecurityHeadersMiddleware nonceMiddleware
    RateLimitMiddleware
  dsimp only
  rw [show getClientIP { r with ctxNonce := some nonce } = getClientIP r from rfl,
    hA]
  rfl

/-- Witness for the amended C7 statement: for the rejected concrete
request, swapping the entire router (even for one that panics) does not
change the response of the chain. -/
theorem non_admitted_never_reaches_router_witness :
    setupMiddlewareChain next200 rlCex 30500000000 nonceW rPeer emptyHeaders
      = setupMiddlewareChain muxNone rlCex 30500000000 nonceW rPeer emptyHeaders :=
  non_admitted_never_reaches_router rlCex 30500000000 nonceW rPeer
    emptyHeaders 29 (by decide) next200 muxNone

end TimeTracker
